import Mathlib

/-
  Verification of the quality-prediction pipeline in
  tenders/ml_model/predictor.py (class QualityPredictor).

  Shallow embedding conventions:
  * Python floats are modelled as rationals (every numeric literal in the
    pipeline is an exact decimal, and every parsed OCR number has the exact
    form dd.dd, so rationals are faithful).
  * External collaborators (the OCR engine, the PDF rasterizer, the image
    opener, the pickled classifier) are parameters of an `Env` record.  A
    collaborator that may raise is modelled as returning `Except Unit`.
    The image preprocessing steps (deep_clean_image, contrast enhancement)
    only transform the image that is handed to the OCR engine and all their
    failure modes are absorbed by the blanket `except` in
    process_image_content, so the composite image-to-text step is a single
    function `Env.ocr`.
  * Python dicts returned by the predictor always carry exactly the keys
    grade, score, confidence (see _ml_prediction, _rule_based_grading,
    _default_prediction); they are modelled by the record `Prediction`.
    No features entry is ever placed in those dicts.
  * `round(x, 2)` in Python rounds half to even; `round2` below does the
    same on rationals.
-/

set_option autoImplicit false

namespace CinnamonPredictor

/-- Rounding half to even of a rational to an integer, the tie-breaking rule
used by the Python builtin `round`. -/
def roundHalfEven (q : ℚ) : ℤ :=
  if q - ⌊q⌋ < 1/2 then ⌊q⌋
  else if 1/2 < q - ⌊q⌋ then ⌊q⌋ + 1
  else if ⌊q⌋ % 2 = 0 then ⌊q⌋ else ⌊q⌋ + 1

/-- Model of the Python call `round(x, 2)`. -/
def round2 (q : ℚ) : ℚ := (roundHalfEven (q * 100) : ℚ) / 100

/-- Class of separator characters accepted between the two digit pairs by the
regular expression `(\d{2})[\s.,](\d{2})` at predictor.py line 175: any
whitespace character, a dot, or a comma. -/
def sepChar (c : Char) : Bool :=
  c = ' ' || c = '\t' || c = '\n' || c = '\r' || c = '\x0b' || c = '\x0c' ||
  c = '.' || c = ','

/-- Test for the regex class `\d` on ASCII text, i.e. Char.isDigit spelt out
on character codes. -/
def isDigitChar (c : Char) : Bool := 48 ≤ c.toNat && c.toNat ≤ 57

/-- Numeric value of a digit character. -/
def digitVal (c : Char) : ℕ := c.toNat - 48

/-- Left-to-right non-overlapping scan of `re.findall(r"(\d{2})[\s.,](\d{2})", text)`
(predictor.py line 175), each match `d1 d2 sep d4 d5` recorded as the integer
number of hundredths of the matched value (d1 d2 . d4 d5).  Every match of
that pattern spans exactly five characters, and `findall` resumes scanning
right after a match, so the scan either consumes a five character match or
advances by one character. -/
def scanCents : List Char → List ℕ
  | c1 :: c2 :: c3 :: c4 :: c5 :: rest =>
    if isDigitChar c1 && isDigitChar c2 && sepChar c3 && isDigitChar c4 && isDigitChar c5 then
      ((digitVal c1 * 10 + digitVal c2) * 100 + (digitVal c4 * 10 + digitVal c5))
        :: scanCents rest
    else
      scanCents (c2 :: c3 :: c4 :: c5 :: rest)
  | _ => []
termination_by structural l => l

/-- Rational value of each match, namely the Python float produced by
`float(f"{n[0]}.{n[1]}")` at predictor.py line 176 (exact, since dd.dd is a
two-decimal value). -/
def scanNums (l : List Char) : List ℚ := (scanCents l).map (fun k : ℕ => (k : ℚ) / 100)

/-- The list `all_nums` of predictor.py line 176 for a given OCR text. -/
def parseNums (text : String) : List ℚ := scanNums text.data

/-- Eugenol candidate filter of predictor.py line 181: `60 <= n <= 98`. -/
def isEugenolCandidate (n : ℚ) : Bool := decide (60 ≤ n) && decide (n ≤ 98)

/-- Trace-element candidate filter of predictor.py line 187: `0.1 <= n <= 5.0`. -/
def isTraceCandidate (n : ℚ) : Bool := decide (1/10 ≤ n) && decide (n ≤ 5)

/-- FeatureSet: the five-key dict built at predictor.py lines 192-198. -/
structure FeatureSet where
  Eugenol_Percentage : ℚ
  Eugenyl_Acetate_Percentage : ℚ
  Linalool_Percentage : ℚ
  Cinnamaldehyde_Percentage : ℚ
  Safrole_Percentage : ℚ
  deriving DecidableEq, Repr

/-- Classification step of process_image_content (predictor.py lines 180-201):
keep the maximum Eugenol candidate, assign the trace candidates positionally,
pad missing trace slots with the constants 0.54, 1.76, 0.78, 0.76, and yield
nothing when no Eugenol candidate exists.  Python `max` folds the tail of the
candidate list over the binary maximum starting from the head. -/
def extractFeatures (allNums : List ℚ) : Option FeatureSet :=
  match allNums.filter isEugenolCandidate with
  | [] => none
  | e :: es =>
    let traces := allNums.filter isTraceCandidate
    some
      { Eugenol_Percentage := es.foldl max e
        Eugenyl_Acetate_Percentage := traces.getD 0 (54/100)
        Linalool_Percentage := traces.getD 1 (176/100)
        Cinnamaldehyde_Percentage := traces.getD 2 (78/100)
        Safrole_Percentage := traces.getD 3 (76/100) }

/-- Prediction: the result dict of predict_quality; exactly the keys grade,
score, confidence are present (predictor.py lines 320-324, 352-356, 360-364). -/
structure Prediction where
  grade : String
  score : ℚ
  confidence : ℚ
  deriving DecidableEq, Repr

/-- ModelArtifact: the pickled classifier as used in _ml_prediction.  The
`predict` call may raise; `predictProba` is present only when the object has
a predict_proba attribute, and may itself raise. -/
structure Model where
  predict : List ℚ → Except Unit String
  predictProba : Option (List ℚ → Except Unit (List ℚ))

/-- Environment of external collaborators of QualityPredictor, fixed for the
lifetime of the predictor instance.  `Img` is the type of in-memory images. -/
structure Env (Img : Type) where
  pdf2imageAvailable : Bool
  ocr : Img → Except Unit String
  convertFromPath : String → Except Unit (List Img)
  openImage : String → Except Unit Img
  model : Option Model

/-- Embedding of QualityPredictor.process_image_content (predictor.py lines
145-205).  The preprocessing plus pytesseract call is `env.ocr`; any raise
inside the method body is caught by the blanket except and yields None. -/
def process_image_content {Img : Type} (env : Env Img) (img : Img) : Option FeatureSet :=
  match env.ocr img with
  | .error _ => none
  | .ok text => extractFeatures (parseNums text)

/-- The page loop of extract_from_pdf (predictor.py lines 220-224): return the
result of the first page whose processing yields a FeatureSet. -/
def pagesLoop {Img : Type} (env : Env Img) : List Img → Option FeatureSet
  | [] => none
  | page :: rest =>
    match process_image_content env page with
    | some f => some f
    | none => pagesLoop env rest

/-- Embedding of QualityPredictor.extract_from_pdf (predictor.py lines
207-231): yield nothing when pdf2image is unavailable or conversion raises,
otherwise run the page loop. -/
def extract_from_pdf {Img : Type} (env : Env Img) (path : String) : Option FeatureSet :=
  if env.pdf2imageAvailable then
    match env.convertFromPath path with
    | .error _ => none
    | .ok pages => pagesLoop env pages
  else none

/-- Embedding of QualityPredictor.extract_from_image (predictor.py lines
233-246): open the file (any raise yields None) and process its content. -/
def extract_from_image {Img : Type} (env : Env Img) (path : String) : Option FeatureSet :=
  match env.openImage path with
  | .error _ => none
  | .ok img => process_image_content env img

/-- Index of the last occurrence of a character in a list, counting from the
given offset; models Python str.rfind restricted to one character. -/
def lastIdxFrom (c : Char) : List Char → ℕ → Option ℕ
  | [], _ => none
  | x :: xs, i =>
    match lastIdxFrom c xs (i + 1) with
    | some j => some j
    | none => if x = c then some i else none

/-- Encoding of the Python rfind result: index of the last occurrence or -1. -/
def idxOrNeg (o : Option ℕ) : ℤ :=
  match o with
  | none => -1
  | some i => (i : ℤ)

/-- Extension part of os.path.splitext on a POSIX path (the deployment target
of predictor.py): the suffix from the last dot, provided that dot lies after
the last slash and the base name has a character other than a dot before it
(so dotfiles such as .bashrc have no extension). -/
def splitextExt (p : String) : String :=
  let l := p.data
  let d := idxOrNeg (lastIdxFrom '.' l 0)
  let s := idxOrNeg (lastIdxFrom '/' l 0)
  if s < d then
    if ((l.drop (s + 1).toNat).take (d - (s + 1)).toNat).any (fun c => c != '.') then
      String.mk (l.drop d.toNat)
    else ""
  else ""

/-- Model of Python str.lower on the extension (ASCII case folding). -/
def lowerStr (s : String) : String := String.mk (s.data.map Char.toLower)

/-- Recognized image extensions (predictor.py line 266). -/
def supportedImageExt (e : String) : Bool := e == ".png" || e == ".jpg" || e == ".jpeg"

/-- Feature extraction stage of predict_quality (predictor.py lines 261-267):
dispatch on the lowered extension; unsupported extensions extract nothing. -/
def extractedFeatures {Img : Type} (env : Env Img) (path : String) : Option FeatureSet :=
  let ext := lowerStr (splitextExt path)
  if ext = ".pdf" then extract_from_pdf env path
  else if supportedImageExt ext then extract_from_image env path
  else none

/-- Feature vector built at predictor.py lines 291-297; the dict produced by
process_image_content always carries all five keys, so the .get defaults
never fire. -/
def featureVec (f : FeatureSet) : List ℚ :=
  [f.Eugenol_Percentage, f.Eugenyl_Acetate_Percentage, f.Linalool_Percentage,
   f.Cinnamaldehyde_Percentage, f.Safrole_Percentage]

/-- Embedding of QualityPredictor._ml_prediction (predictor.py lines 287-328).
A raise from model.predict propagates (re-raised at line 328).  The
confidence starts at 0.95 and is replaced by the maximum class probability
when predict_proba exists and returns a nonempty vector; a raise inside that
attempt (including max over an empty vector) is swallowed by the bare except
at lines 311-312. -/
def mlPrediction (m : Model) (f : FeatureSet) : Except Unit Prediction :=
  match m.predict (featureVec f) with
  | .error e => .error e
  | .ok grade =>
    let confidence : ℚ :=
      match m.predictProba with
      | none => 95/100
      | some pf =>
        match pf (featureVec f) with
        | .ok (p :: ps) => ps.foldl max p
        | _ => 95/100
    .ok { grade := grade
          score := round2 f.Eugenol_Percentage
          confidence := round2 confidence }

/-- Embedding of QualityPredictor._rule_based_grading (predictor.py lines
330-356). -/
def ruleBasedGrading (f : FeatureSet) : Prediction :=
  let eugenol := f.Eugenol_Percentage
  let grade := if eugenol ≥ 85 then "A"
    else if eugenol ≥ 78 then "B"
    else if eugenol ≥ 70 then "C"
    else "D"
  { grade := grade, score := round2 eugenol, confidence := 85/100 }

/-- Embedding of QualityPredictor._default_prediction (predictor.py lines
358-364). -/
def defaultPrediction : Prediction :=
  { grade := "C", score := 75, confidence := 3/10 }

/-- Scoring stage of predict_quality (predictor.py lines 272-285): a falsy
features value yields the default; otherwise the ML path runs when a model is
loaded, with any raise caught and answered by the rule-based fallback. -/
def predictFromFeatures {Img : Type} (env : Env Img) : Option FeatureSet → Prediction
  | none => defaultPrediction
  | some f =>
    match env.model with
    | none => ruleBasedGrading f
    | some m =>
      match mlPrediction m f with
      | .ok p => p
      | .error _ => ruleBasedGrading f

/-- Embedding of QualityPredictor.predict_quality (predictor.py lines
248-285).  An unsupported extension returns the default immediately (lines
268-270); otherwise the extraction stage feeds the scoring stage. -/
def predict_quality {Img : Type} (env : Env Img) (path : String) : Prediction :=
  let ext := lowerStr (splitextExt path)
  if ext = ".pdf" ∨ supportedImageExt ext = true then
    predictFromFeatures env (extractedFeatures env path)
  else defaultPrediction

/-- Predicate packaging the invariants of every Eugenol value produced by
extraction: an exact two-decimal value in the candidate window. -/
def GoodF (f : FeatureSet) : Prop :=
  (∃ k : ℕ, k ≤ 9999 ∧ f.Eugenol_Percentage = (k : ℚ) / 100) ∧
  60 ≤ f.Eugenol_Percentage ∧ f.Eugenol_Percentage ≤ 98

/-- Well-formedness of the probability interface of a classifier, as promised
by the collaborator contract: class probabilities lie in the unit interval. -/
def ProbaOk (m : Model) : Prop :=
  ∀ pf vec l, m.predictProba = some pf → pf vec = Except.ok l →
    ∀ p ∈ l, 0 ≤ p ∧ p ≤ 1

/-- Well-formedness of the loaded model, when one is loaded. -/
def envProbaOk {Img : Type} (env : Env Img) : Prop :=
  ∀ m, env.model = some m → ProbaOk m

/-- Sample environment in which every external tool fails and no model is
loaded. -/
def envNoTools : Env Unit :=
  { pdf2imageAvailable := false
    ocr := fun _ => .error ()
    convertFromPath := fun _ => .error ()
    openImage := fun _ => .ok ()
    model := none }

/-- Sample environment whose OCR engine reads the single token 87.42 from
every image, with no model loaded. -/
def envImageOnly : Env Unit :=
  { pdf2imageAvailable := false
    ocr := fun _ => .ok "87.42"
    convertFromPath := fun _ => .error ()
    openImage := fun _ => .ok ()
    model := none }

/-- Sample classifier whose predict call always raises. -/
def failingModel : Model :=
  { predict := fun _ => .error ()
    predictProba := none }

/-- Sample environment with working OCR but a classifier that raises on
inference. -/
def envFailingModel : Env Unit :=
  { pdf2imageAvailable := false
    ocr := fun _ => .ok "87.42"
    convertFromPath := fun _ => .error ()
    openImage := fun _ => .ok ()
    model := some failingModel }

/-- Sample environment whose PDF rasterizer yields three pages, of which only
the second one OCRs successfully. -/
def envPdfPages : Env ℕ :=
  { pdf2imageAvailable := true
    ocr := fun n => if n = 1 then .ok "87.42" else .error ()
    convertFromPath := fun _ => .ok [0, 1, 2]
    openImage := fun _ => .error ()
    model := none }

/-- The FeatureSet extracted from the OCR text 87.42: Eugenol 87.42 and all
four trace defaults. -/
def sampleFeatures : FeatureSet :=
  { Eugenol_Percentage := 8742/100
    Eugenyl_Acetate_Percentage := 54/100
    Linalool_Percentage := 176/100
    Cinnamaldehyde_Percentage := 78/100
    Safrole_Percentage := 76/100 }

theorem roundHalfEven_intCast (k : ℤ) : roundHalfEven (k : ℚ) = k := by
  unfold roundHalfEven
  norm_num

theorem round2_int_div100 (k : ℤ) : round2 ((k : ℚ) / 100) = (k : ℚ) / 100 := by
  unfold round2
  rw [div_mul_cancel₀ _ (by norm_num : (100 : ℚ) ≠ 0), roundHalfEven_intCast]

theorem floor_le_roundHalfEven (q : ℚ) : ⌊q⌋ ≤ roundHalfEven q := by
  unfold roundHalfEven
  split_ifs <;> omega

theorem roundHalfEven_le_ceil (q : ℚ) : roundHalfEven q ≤ ⌈q⌉ := by
  unfold roundHalfEven
  have hfc := Int.floor_le_ceil q
  split_ifs with h1 h2 h3
  · exact hfc
  · have hlt : (⌊q⌋ : ℚ) < q := by linarith
    exact Int.add_one_le_iff.mpr (Int.lt_ceil.mpr hlt)
  · exact hfc
  · have hmid : q - ⌊q⌋ = 1/2 := le_antisymm (not_lt.mp h2) (not_lt.mp h1)
    have hlt : (⌊q⌋ : ℚ) < q := by linarith
    exact Int.add_one_le_iff.mpr (Int.lt_ceil.mpr hlt)

theorem round2_unit {q : ℚ} (h0 : 0 ≤ q) (h1 : q ≤ 1) :
    0 ≤ round2 q ∧ round2 q ≤ 1 := by
  have hnn : (0 : ℤ) ≤ roundHalfEven (q * 100) :=
    le_trans (Int.le_floor.mpr (by push_cast; nlinarith)) (floor_le_roundHalfEven _)
  have hub : roundHalfEven (q * 100) ≤ 100 :=
    le_trans (roundHalfEven_le_ceil _) (Int.ceil_le.mpr (by push_cast; nlinarith))
  unfold round2
  constructor
  · apply div_nonneg _ (by norm_num)
    exact_mod_cast hnn
  · rw [div_le_one (by norm_num)]
    exact_mod_cast hub

theorem foldl_max_mem (e : ℚ) (es : List ℚ) :
    es.foldl max e = e ∨ es.foldl max e ∈ es := by
  induction es generalizing e with
  | nil => exact Or.inl rfl
  | cons x xs ih =>
    rw [List.foldl_cons]
    rcases ih (max e x) with h | h
    · rcases max_choice e x with hm | hm
      · exact Or.inl (h.trans hm)
      · exact Or.inr (by rw [h, hm]; exact List.mem_cons_self x xs)
    · exact Or.inr (List.mem_cons_of_mem x h)

theorem le_foldl_max (e : ℚ) (es : List ℚ) : e ≤ es.foldl max e := by
  induction es generalizing e with
  | nil => exact le_refl e
  | cons x xs ih => exact le_trans (le_max_left e x) (ih (max e x))

theorem mem_le_foldl_max (e : ℚ) (es : List ℚ) {x : ℚ} (hx : x ∈ es) :
    x ≤ es.foldl max e := by
  induction es generalizing e with
  | nil => cases hx
  | cons y ys ih =>
    rw [List.foldl_cons]
    rcases List.mem_cons.mp hx with rfl | h
    · exact le_trans (le_max_right e x) (le_foldl_max _ ys)
    · exact ih (max e y) h

theorem digitVal_le {c : Char} (h : isDigitChar c = true) : digitVal c ≤ 9 := by
  simp only [isDigitChar, Bool.and_eq_true, decide_eq_true_eq] at h
  unfold digitVal
  omega

theorem scanCents_le (l : List Char) : ∀ k ∈ scanCents l, k ≤ 9999 := by
  induction l using scanCents.induct with
  | case1 c1 c2 c3 c4 c5 rest h ih =>
    intro k hk
    rw [scanCents, if_pos h] at hk
    rcases List.mem_cons.mp hk with rfl | hk
    · simp only [Bool.and_eq_true] at h
      have b1 := digitVal_le h.1.1.1.1
      have b2 := digitVal_le h.1.1.1.2
      have b4 := digitVal_le h.1.2
      have b5 := digitVal_le h.2
      omega
    · exact ih k hk
  | case2 c1 c2 c3 c4 c5 rest h ih =>
    intro k hk
    rw [scanCents, if_neg h] at hk
    exact ih k hk
  | case3 l h =>
    intro k hk
    rw [scanCents] at hk
    · cases hk
    · exact h

theorem scanNums_shape (l : List Char) :
    ∀ q ∈ scanNums l, ∃ k : ℕ, k ≤ 9999 ∧ q = (k : ℚ) / 100 := by
  intro q hq
  rw [scanNums] at hq
  rcases (@List.mem_map ℕ ℚ q (fun k : ℕ => (k : ℚ) / 100) (scanCents l)).mp hq with
    ⟨k, hk, hkq⟩
  exact ⟨k, scanCents_le l k hk, hkq.symm⟩

theorem parseNums_shape (text : String) :
    ∀ q ∈ parseNums text, ∃ k : ℕ, k ≤ 9999 ∧ q = (k : ℚ) / 100 :=
  scanNums_shape text.data

theorem extractFeatures_isSome_iff (nums : List ℚ) :
    (extractFeatures nums).isSome ↔ ∃ n ∈ nums, isEugenolCandidate n = true := by
  unfold extractFeatures
  cases hf : nums.filter isEugenolCandidate with
  | nil =>
    have hall := List.filter_eq_nil_iff.mp hf
    simp only [Option.isSome_none, Bool.false_eq_true, false_iff]
    rintro ⟨n, hn, hc⟩
    exact hall n hn hc
  | cons e es =>
    simp only [Option.isSome_some, true_iff]
    have he : e ∈ nums.filter isEugenolCandidate := by
      rw [hf]; exact List.mem_cons_self e es
    exact ⟨e, (List.mem_filter.mp he).1, (List.mem_filter.mp he).2⟩

theorem extractFeatures_eugenol_mem {nums : List ℚ} {f : FeatureSet}
    (h : extractFeatures nums = some f) :
    f.Eugenol_Percentage ∈ nums ∧ isEugenolCandidate f.Eugenol_Percentage = true := by
  unfold extractFeatures at h
  cases hf : nums.filter isEugenolCandidate with
  | nil => rw [hf] at h; cases h
  | cons e es =>
    rw [hf] at h
    have hE : f.Eugenol_Percentage = es.foldl max e := by
      cases Option.some.inj h
      rfl
    have hm : es.foldl max e ∈ e :: es := by
      rcases foldl_max_mem e es with h1 | h1
      · rw [h1]; exact List.mem_cons_self e es
      · exact List.mem_cons_of_mem e h1
    rw [← hf] at hm
    rw [hE]
    exact ⟨(List.mem_filter.mp hm).1, (List.mem_filter.mp hm).2⟩

theorem extractFeatures_eugenol_max {nums : List ℚ} {f : FeatureSet}
    (h : extractFeatures nums = some f) :
    ∀ n ∈ nums, isEugenolCandidate n = true → n ≤ f.Eugenol_Percentage := by
  intro n hn hc
  unfold extractFeatures at h
  cases hf : nums.filter isEugenolCandidate with
  | nil => rw [hf] at h; cases h
  | cons e es =>
    rw [hf] at h
    have hE : f.Eugenol_Percentage = es.foldl max e := by
      cases Option.some.inj h
      rfl
    have hmem : n ∈ e :: es := by
      rw [← hf]
      exact List.mem_filter.mpr ⟨hn, hc⟩
    rw [hE]
    rcases List.mem_cons.mp hmem with rfl | hmem
    · exact le_foldl_max n es
    · exact mem_le_foldl_max e es hmem

theorem extractFeatures_traces {nums : List ℚ} {f : FeatureSet}
    (h : extractFeatures nums = some f) :
    f.Eugenyl_Acetate_Percentage = (nums.filter isTraceCandidate).getD 0 (54/100) ∧
    f.Linalool_Percentage = (nums.filter isTraceCandidate).getD 1 (176/100) ∧
    f.Cinnamaldehyde_Percentage = (nums.filter isTraceCandidate).getD 2 (78/100) ∧
    f.Safrole_Percentage = (nums.filter isTraceCandidate).getD 3 (76/100) := by
  unfold extractFeatures at h
  cases hf : nums.filter isEugenolCandidate with
  | nil => rw [hf] at h; cases h
  | cons e es =>
    rw [hf] at h
    cases Option.some.inj h
    exact ⟨rfl, rfl, rfl, rfl⟩

theorem extractFeatures_good {nums : List ℚ} {f : FeatureSet}
    (hnums : ∀ q ∈ nums, ∃ k : ℕ, k ≤ 9999 ∧ q = (k : ℚ) / 100)
    (h : extractFeatures nums = some f) : GoodF f := by
  obtain ⟨hm, hc⟩ := extractFeatures_eugenol_mem h
  simp only [isEugenolCandidate, Bool.and_eq_true, decide_eq_true_eq] at hc
  exact ⟨hnums _ hm, hc.1, hc.2⟩

theorem process_image_content_good {Img : Type} {env : Env Img} {img : Img}
    {f : FeatureSet} (h : process_image_content env img = some f) : GoodF f := by
  unfold process_image_content at h
  cases he : env.ocr img with
  | error e => rw [he] at h; cases h
  | ok text =>
    rw [he] at h
    exact extractFeatures_good (parseNums_shape text) h

theorem pagesLoop_some {Img : Type} {env : Env Img} {pages : List Img}
    {f : FeatureSet} (h : pagesLoop env pages = some f) :
    ∃ p ∈ pages, process_image_content env p = some f := by
  induction pages with
  | nil => cases h
  | cons page rest ih =>
    rw [pagesLoop] at h
    cases hp : process_image_content env page with
    | some g =>
      rw [hp] at h
      exact ⟨page, List.mem_cons_self page rest, hp.trans h⟩
    | none =>
      rw [hp] at h
      obtain ⟨p, hmem, hpf⟩ := ih h
      exact ⟨p, List.mem_cons_of_mem page hmem, hpf⟩

theorem pagesLoop_all_none {Img : Type} {env : Env Img} {pages : List Img}
    (h : ∀ p ∈ pages, process_image_content env p = none) :
    pagesLoop env pages = none := by
  induction pages with
  | nil => rfl
  | cons page rest ih =>
    rw [pagesLoop, h page (List.mem_cons_self page rest)]
    exact ih fun p hp => h p (List.mem_cons_of_mem page hp)

theorem pagesLoop_first_some {Img : Type} {env : Env Img} (pre : List Img)
    (page : Img) (rest : List Img) {f : FeatureSet}
    (hpre : ∀ q ∈ pre, process_image_content env q = none)
    (hpage : process_image_content env page = some f) :
    pagesLoop env (pre ++ page :: rest) = some f := by
  induction pre with
  | nil => rw [List.nil_append, pagesLoop, hpage]
  | cons q qs ih =>
    rw [List.cons_append, pagesLoop, hpre q (List.mem_cons_self q qs)]
    exact ih fun p hp => hpre p (List.mem_cons_of_mem q hp)

theorem extract_from_pdf_good {Img : Type} {env : Env Img} {path : String}
    {f : FeatureSet} (h : extract_from_pdf env path = some f) : GoodF f := by
  unfold extract_from_pdf at h
  split at h
  · cases hc : env.convertFromPath path with
    | error e => rw [hc] at h; cases h
    | ok pages =>
      rw [hc] at h
      obtain ⟨p, _, hpf⟩ := pagesLoop_some h
      exact process_image_content_good hpf
  · cases h

theorem extract_from_image_good {Img : Type} {env : Env Img} {path : String}
    {f : FeatureSet} (h : extract_from_image env path = some f) : GoodF f := by
  unfold extract_from_image at h
  cases ho : env.openImage path with
  | error e => rw [ho] at h; cases h
  | ok img =>
    rw [ho] at h
    exact process_image_content_good h

theorem extractedFeatures_good {Img : Type} {env : Env Img} {path : String}
    {f : FeatureSet} (h : extractedFeatures env path = some f) : GoodF f := by
  simp only [extractedFeatures] at h
  split at h
  · exact extract_from_pdf_good h
  · split at h
    · exact extract_from_image_good h
    · cases h

theorem round2_goodF {f : FeatureSet} (h : GoodF f) :
    round2 f.Eugenol_Percentage = f.Eugenol_Percentage := by
  obtain ⟨⟨k, _, hk⟩, _, _⟩ := h
  rw [hk]
  have h100 := round2_int_div100 (k : ℤ)
  rw [Int.cast_natCast] at h100
  exact h100

theorem ruleBasedGrading_shape (f : FeatureSet) :
    (ruleBasedGrading f).score = round2 f.Eugenol_Percentage ∧
    (ruleBasedGrading f).confidence = 85/100 :=
  ⟨rfl, rfl⟩

theorem mlPrediction_ok_shape {m : Model} {f : FeatureSet} {p : Prediction}
    (h : mlPrediction m f = Except.ok p) :
    p.score = round2 f.Eugenol_Percentage ∧
    (p.confidence = round2 (95/100) ∨
      ∃ pf q qs, m.predictProba = some pf ∧
        pf (featureVec f) = Except.ok (q :: qs) ∧
        p.confidence = round2 (qs.foldl max q)) := by
  unfold mlPrediction at h
  cases hp : m.predict (featureVec f) with
  | error e => rw [hp] at h; cases h
  | ok grade =>
    rw [hp] at h
    dsimp only at h
    cases hpp : m.predictProba with
    | none =>
      rw [hpp] at h
      injection h with h
      subst h
      exact ⟨rfl, Or.inl rfl⟩
    | some pf =>
      rw [hpp] at h
      dsimp only at h
      cases hl : pf (featureVec f) with
      | error e =>
        rw [hl] at h
        dsimp only at h
        injection h with h
        subst h
        exact ⟨rfl, Or.inl rfl⟩
      | ok l =>
        rw [hl] at h
        cases l with
        | nil =>
          dsimp only at h
          injection h with h
          subst h
          exact ⟨rfl, Or.inl rfl⟩
        | cons q qs =>
          dsimp only at h
          injection h with h
          subst h
          exact ⟨rfl, Or.inr ⟨pf, q, qs, rfl, hl, rfl⟩⟩

theorem mlPrediction_confidence_unit {m : Model} {f : FeatureSet} {p : Prediction}
    (hm : ProbaOk m) (h : mlPrediction m f = Except.ok p) :
    0 ≤ p.confidence ∧ p.confidence ≤ 1 := by
  rcases (mlPrediction_ok_shape h).2 with hc | ⟨pf, q, qs, hpp, hl, hc⟩
  · have h95 := round2_int_div100 95
    push_cast at h95
    rw [hc, h95]
    norm_num
  · have hall := hm pf (featureVec f) (q :: qs) hpp hl
    have hmem : qs.foldl max q ∈ q :: qs := by
      rcases foldl_max_mem q qs with h1 | h1
      · rw [h1]; exact List.mem_cons_self q qs
      · exact List.mem_cons_of_mem q h1
    obtain ⟨h0, h1⟩ := hall _ hmem
    rw [hc]
    exact round2_unit h0 h1

theorem goodF_score_bounds {f : FeatureSet} (hg : GoodF f) :
    60 ≤ round2 f.Eugenol_Percentage ∧ round2 f.Eugenol_Percentage ≤ 98 := by
  rw [round2_goodF hg]
  exact ⟨hg.2.1, hg.2.2⟩

theorem predictFromFeatures_bounds {Img : Type} (env : Env Img)
    (fo : Option FeatureSet) (hgood : ∀ f, fo = some f → GoodF f)
    (hp : envProbaOk env) :
    0 ≤ (predictFromFeatures env fo).confidence ∧
    (predictFromFeatures env fo).confidence ≤ 1 ∧
    0 ≤ (predictFromFeatures env fo).score ∧
    (predictFromFeatures env fo).score ≤ 100 := by
  cases fo with
  | none =>
    refine ⟨?_, ?_, ?_, ?_⟩ <;> norm_num [predictFromFeatures, defaultPrediction]
  | some f =>
    have hg := hgood f rfl
    have hsb := goodF_score_bounds hg
    have hrule : 0 ≤ (ruleBasedGrading f).confidence ∧
        (ruleBasedGrading f).confidence ≤ 1 ∧
        0 ≤ (ruleBasedGrading f).score ∧ (ruleBasedGrading f).score ≤ 100 := by
      obtain ⟨hs, hc⟩ := ruleBasedGrading_shape f
      rw [hs, hc]
      refine ⟨by norm_num, by norm_num, by linarith [hsb.1], by linarith [hsb.2]⟩
    cases hm : env.model with
    | none => simpa only [predictFromFeatures, hm] using hrule
    | some m =>
      cases hml : mlPrediction m f with
      | error e => simpa only [predictFromFeatures, hm, hml] using hrule
      | ok p =>
        have hconf := mlPrediction_confidence_unit (hp m hm) hml
        have hscore := (mlPrediction_ok_shape hml).1
        simp only [predictFromFeatures, hm, hml]
        rw [hscore]
        exact ⟨hconf.1, hconf.2, by linarith [hsb.1], by linarith [hsb.2]⟩

theorem supported_of_extracted {Img : Type} (env : Env Img) (path : String)
    {f : FeatureSet} (h : extractedFeatures env path = some f) :
    lowerStr (splitextExt path) = ".pdf" ∨
    supportedImageExt (lowerStr (splitextExt path)) = true := by
  by_contra hc
  rw [not_or] at hc
  simp only [extractedFeatures] at h
  rw [if_neg hc.1, if_neg hc.2] at h
  cases h

theorem predict_quality_of_extracted {Img : Type} (env : Env Img) (path : String)
    {f : FeatureSet} (h : extractedFeatures env path = some f) :
    predict_quality env path = predictFromFeatures env (some f) := by
  simp only [predict_quality]
  rw [if_pos (supported_of_extracted env path h), h]

theorem parseNums_sample : parseNums "87.42" = [(8742 : ℚ) / 100] := by
  have h : scanCents ("87.42").data = [8742] := by decide
  simp [parseNums, scanNums, h]

theorem eugenolCandidate_8742 : isEugenolCandidate ((8742 : ℚ) / 100) = true := by
  simp only [isEugenolCandidate, Bool.and_eq_true, decide_eq_true_eq]
  norm_num

theorem traceCandidate_8742 : isTraceCandidate ((8742 : ℚ) / 100) = false := by
  simp only [isTraceCandidate]
  rw [decide_eq_false (by norm_num : ¬ ((8742 : ℚ) / 100 ≤ 5))]
  simp

theorem extractFeatures_sample :
    extractFeatures (parseNums "87.42") = some sampleFeatures := by
  rw [parseNums_sample]
  unfold extractFeatures
  simp [List.filter_cons, eugenolCandidate_8742, traceCandidate_8742, sampleFeatures]

theorem extractedFeatures_png {Img : Type} (env : Env Img) {img : Img}
    (ho : env.openImage "r.png" = Except.ok img)
    (hocr : env.ocr img = Except.ok "87.42") :
    extractedFeatures env "r.png" = some sampleFeatures := by
  have h1 : lowerStr (splitextExt "r.png") = ".png" := by decide
  simp only [extractedFeatures, h1]
  rw [if_neg (by decide : ¬ (".png" : String) = ".pdf"),
    if_pos (by decide : supportedImageExt ".png" = true)]
  simp only [extract_from_image, ho, process_image_content, hocr]
  exact extractFeatures_sample

theorem parseNums_five_tokens :
    parseNums "65.10, 1.20, 2.30, 0.90, 0.50" = [(6510 : ℚ) / 100] := by
  have h : scanCents ("65.10, 1.20, 2.30, 0.90, 0.50").data = [6510] := by decide
  simp [parseNums, scanNums, h]

theorem extractFeatures_five_tokens :
    extractFeatures (parseNums "65.10, 1.20, 2.30, 0.90, 0.50") =
      some { Eugenol_Percentage := 651/10
             Eugenyl_Acetate_Percentage := 54/100
             Linalool_Percentage := 176/100
             Cinnamaldehyde_Percentage := 78/100
             Safrole_Percentage := 76/100 } := by
  rw [parseNums_five_tokens]
  have he : isEugenolCandidate ((6510 : ℚ) / 100) = true := by
    simp only [isEugenolCandidate, Bool.and_eq_true, decide_eq_true_eq]
    norm_num
  have ht : isTraceCandidate ((6510 : ℚ) / 100) = false := by
    simp only [isTraceCandidate]
    rw [decide_eq_false (by norm_num : ¬ ((6510 : ℚ) / 100 ≤ 5))]
    simp
  unfold extractFeatures
  simp [List.filter_cons, he, ht]
  norm_num

/-- C1: for every input file path, predict_quality returns a Prediction whose
confidence lies in [0, 1] and whose score lies in [0, 100].  Totality (never
raising to the caller) is expressed by the return type of the embedding:
every raise of a collaborator is modelled as an Except error and every one of
them is caught on some branch of predict_quality.  The single assumption is
the collaborator contract on the loaded classifier, that its predict_proba
values form probabilities in the unit interval. -/
theorem predict_quality_bounds {Img : Type} (env : Env Img) (path : String)
    (hp : envProbaOk env) :
    0 ≤ (predict_quality env path).confidence ∧
    (predict_quality env path).confidence ≤ 1 ∧
    0 ≤ (predict_quality env path).score ∧
    (predict_quality env path).score ≤ 100 := by
  simp only [predict_quality]
  split
  · exact predictFromFeatures_bounds env _ (fun f hf => extractedFeatures_good hf) hp
  · refine ⟨?_, ?_, ?_, ?_⟩ <;> norm_num [defaultPrediction]

/-- Witness for C1 at a concrete environment and path. -/
theorem predict_quality_bounds_witness :
    0 ≤ (predict_quality envNoTools "report.txt").confidence ∧
    (predict_quality envNoTools "report.txt").confidence ≤ 1 ∧
    0 ≤ (predict_quality envNoTools "report.txt").score ∧
    (predict_quality envNoTools "report.txt").score ≤ 100 :=
  predict_quality_bounds envNoTools "report.txt" (fun _ hm => nomatch hm)

/-- C2: for every OCR text, extraction succeeds exactly when some parsed value
lies in [60, 98]; the Eugenol slot is then the maximum parsed value in that
window, every parsed value in [0.1, 5.0] is a trace candidate, the first four
trace candidates in document order fill the four trace slots positionally,
and missing slots receive the constants 0.54, 1.76, 0.78, 0.76. -/
theorem extraction_classification_spec (text : String) :
    ((extractFeatures (parseNums text)).isSome ↔
      ∃ n ∈ parseNums text, 60 ≤ n ∧ n ≤ 98) ∧
    (∀ f, extractFeatures (parseNums text) = some f →
      (f.Eugenol_Percentage ∈ parseNums text ∧
        60 ≤ f.Eugenol_Percentage ∧ f.Eugenol_Percentage ≤ 98 ∧
        ∀ n ∈ parseNums text, 60 ≤ n → n ≤ 98 → n ≤ f.Eugenol_Percentage) ∧
      (f.Eugenyl_Acetate_Percentage =
          ((parseNums text).filter isTraceCandidate).getD 0 (54/100) ∧
        f.Linalool_Percentage =
          ((parseNums text).filter isTraceCandidate).getD 1 (176/100) ∧
        f.Cinnamaldehyde_Percentage =
          ((parseNums text).filter isTraceCandidate).getD 2 (78/100) ∧
        f.Safrole_Percentage =
          ((parseNums text).filter isTraceCandidate).getD 3 (76/100)) ∧
      (∀ n ∈ parseNums text, 1/10 ≤ n → n ≤ 5 → isTraceCandidate n = true)) := by
  constructor
  · rw [extractFeatures_isSome_iff]
    constructor
    · rintro ⟨n, hn, hc⟩
      simp only [isEugenolCandidate, Bool.and_eq_true, decide_eq_true_eq] at hc
      exact ⟨n, hn, hc⟩
    · rintro ⟨n, hn, h1, h2⟩
      exact ⟨n, hn, by simp [isEugenolCandidate, h1, h2]⟩
  · intro f hf
    obtain ⟨hmem, hc⟩ := extractFeatures_eugenol_mem hf
    simp only [isEugenolCandidate, Bool.and_eq_true, decide_eq_true_eq] at hc
    refine ⟨⟨hmem, hc.1, hc.2, ?_⟩, extractFeatures_traces hf, ?_⟩
    · intro n hn h1 h2
      exact extractFeatures_eugenol_max hf n hn (by simp [isEugenolCandidate, h1, h2])
    · intro n _ h1 h2
      simp only [isTraceCandidate, Bool.and_eq_true, decide_eq_true_eq]
      exact ⟨h1, h2⟩

/-- Witness for C2 at the OCR text 87.42. -/
theorem extraction_classification_spec_witness :
    (extractFeatures (parseNums "87.42")).isSome ∧
    sampleFeatures.Eugenol_Percentage ∈ parseNums "87.42" := by
  have h := extraction_classification_spec "87.42"
  constructor
  · refine h.1.mpr ⟨(8742 : ℚ) / 100, ?_, by norm_num, by norm_num⟩
    rw [parseNums_sample]
    exact List.mem_singleton_self _
  · exact ((h.2 sampleFeatures extractFeatures_sample).1).1

/-- C3: the rule-based fallback grades by the Eugenol percentage alone, with
thresholds A at 85, B on [78, 84.99], C on [70, 77.99], D below 70; the score
equals the Eugenol percentage (every extracted value has exactly two
decimals, so rounding to two decimals is the identity) and the confidence
is 0.85. -/
theorem rule_based_grading_spec (f : FeatureSet)
    (h2d : ∃ k : ℤ, f.Eugenol_Percentage = (k : ℚ) / 100) :
    (85 ≤ f.Eugenol_Percentage → (ruleBasedGrading f).grade = "A") ∧
    (78 ≤ f.Eugenol_Percentage → f.Eugenol_Percentage ≤ 8499/100 →
      (ruleBasedGrading f).grade = "B") ∧
    (70 ≤ f.Eugenol_Percentage → f.Eugenol_Percentage ≤ 7799/100 →
      (ruleBasedGrading f).grade = "C") ∧
    (f.Eugenol_Percentage < 70 → (ruleBasedGrading f).grade = "D") ∧
    (ruleBasedGrading f).score = f.Eugenol_Percentage ∧
    (ruleBasedGrading f).confidence = 85/100 ∧
    (∀ g : FeatureSet, g.Eugenol_Percentage = f.Eugenol_Percentage →
      ruleBasedGrading g = ruleBasedGrading f) := by
  obtain ⟨k, hk⟩ := h2d
  refine ⟨?_, ?_, ?_, ?_, ?_, rfl, ?_⟩
  · intro h
    simp only [ruleBasedGrading]
    rw [if_pos h]
  · intro h1 h2
    have hA : ¬ (85 ≤ f.Eugenol_Percentage) := by linarith
    simp only [ruleBasedGrading]
    rw [if_neg hA, if_pos h1]
  · intro h1 h2
    have hA : ¬ (85 ≤ f.Eugenol_Percentage) := by linarith
    have hB : ¬ (78 ≤ f.Eugenol_Percentage) := by linarith
    simp only [ruleBasedGrading]
    rw [if_neg hA, if_neg hB, if_pos h1]
  · intro h
    have hA : ¬ (85 ≤ f.Eugenol_Percentage) := by linarith
    have hB : ¬ (78 ≤ f.Eugenol_Percentage) := by linarith
    have hC : ¬ (70 ≤ f.Eugenol_Percentage) := by linarith
    simp only [ruleBasedGrading]
    rw [if_neg hA, if_neg hB, if_neg hC]
  · show round2 f.Eugenol_Percentage = f.Eugenol_Percentage
    rw [hk]
    exact round2_int_div100 k
  · intro g hg
    simp only [ruleBasedGrading, hg]

/-- Witness for C3 on the FeatureSet extracted from the token 87.42. -/
theorem rule_based_grading_spec_witness :
    (ruleBasedGrading sampleFeatures).grade = "A" ∧
    (ruleBasedGrading sampleFeatures).score = sampleFeatures.Eugenol_Percentage := by
  have h := rule_based_grading_spec sampleFeatures ⟨8742, by norm_num [sampleFeatures]⟩
  exact ⟨h.1 (by norm_num [sampleFeatures]), h.2.2.2.2.1⟩

/-- C4: every file path whose lowered extension is neither .pdf nor one of
.png, .jpg, .jpeg yields exactly the Default Prediction with grade C, score
75.0 and confidence 0.3, and no error; the prediction dict of the code holds
no feature entries at all, matching the empty features of the claim. -/
theorem unsupported_extension_default {Img : Type} (env : Env Img) (path : String)
    (h : ¬(lowerStr (splitextExt path) = ".pdf" ∨
        supportedImageExt (lowerStr (splitextExt path)) = true)) :
    predict_quality env path = defaultPrediction ∧
    defaultPrediction.grade = "C" ∧ defaultPrediction.score = 75 ∧
    defaultPrediction.confidence = 3/10 := by
  refine ⟨?_, rfl, rfl, rfl⟩
  simp only [predict_quality]
  rw [if_neg h]

/-- Witness for C4 at a .txt path. -/
theorem unsupported_extension_default_witness :
    predict_quality envNoTools "report.txt" = defaultPrediction :=
  (unsupported_extension_default envNoTools "report.txt" (by decide)).1

/-- C5, corrected: for an OCR text with exactly the tokens 65.10, 1.20, 2.30,
0.90 and 0.50, Eugenol is 65.10 and the rule-based grade is D as claimed, but
the regular expression demands two digits on each side of the separator, so
the four single-digit trace tokens are not parsed at all and every trace slot
receives its default constant instead of the token values. -/
theorem five_token_example_amended :
    parseNums "65.10, 1.20, 2.30, 0.90, 0.50" = [651/10] ∧
    extractFeatures (parseNums "65.10, 1.20, 2.30, 0.90, 0.50") =
      some { Eugenol_Percentage := 651/10
             Eugenyl_Acetate_Percentage := 54/100
             Linalool_Percentage := 176/100
             Cinnamaldehyde_Percentage := 78/100
             Safrole_Percentage := 76/100 } ∧
    ruleBasedGrading
        { Eugenol_Percentage := 651/10
          Eugenyl_Acetate_Percentage := 54/100
          Linalool_Percentage := 176/100
          Cinnamaldehyde_Percentage := 78/100
          Safrole_Percentage := 76/100 } =
      { grade := "D", score := 651/10, confidence := 85/100 } := by
  have hr : round2 ((651 : ℚ) / 10) = (651 : ℚ) / 10 := by
    have h1 : ((651 : ℚ) / 10) = ((6510 : ℤ) : ℚ) / 100 := by norm_num
    rw [h1, round2_int_div100]
  refine ⟨?_, ?_, ?_⟩
  · rw [parseNums_five_tokens]
    norm_num
  · exact extractFeatures_five_tokens
  · simp only [ruleBasedGrading]
    rw [if_neg (by norm_num : ¬ ((651 : ℚ) / 10 ≥ 85)),
      if_neg (by norm_num : ¬ ((651 : ℚ) / 10 ≥ 78)),
      if_neg (by norm_num : ¬ ((651 : ℚ) / 10 ≥ 70)), hr]

/-- Counterexample to C5 as stated: on that exact text the first trace slot
holds the default 0.54, not the document value 1.20. -/
theorem five_token_example_cex :
    Option.map FeatureSet.Eugenyl_Acetate_Percentage
        (extractFeatures (parseNums "65.10, 1.20, 2.30, 0.90, 0.50")) ≠
      some (12/10) := by
  rw [extractFeatures_five_tokens]
  simp only [Option.map_some', ne_eq, Option.some.injEq]
  norm_num

/-- C6: when a model is loaded and its inference raises on an extracted
FeatureSet, predict_quality returns exactly the rule-based fallback output
for that FeatureSet; the raise is absorbed, never surfaced. -/
theorem model_failure_fallback {Img : Type} (env : Env Img) (path : String)
    (m : Model) (f : FeatureSet) (hm : env.model = some m)
    (hf : extractedFeatures env path = some f)
    (hpred : m.predict (featureVec f) = Except.error ()) :
    predict_quality env path = ruleBasedGrading f := by
  have hml : mlPrediction m f = Except.error () := by
    unfold mlPrediction
    rw [hpred]
  rw [predict_quality_of_extracted env path hf]
  simp only [predictFromFeatures, hm, hml]

/-- Witness for C6 with a classifier that always raises. -/
theorem model_failure_fallback_witness :
    predict_quality envFailingModel "r.png" = ruleBasedGrading sampleFeatures :=
  model_failure_fallback envFailingModel "r.png" failingModel sampleFeatures
    rfl (extractedFeatures_png envFailingModel rfl rfl) rfl

/-- C7: with an OCR engine that is missing or non-functional (every
invocation raises), extraction is absent for every image and predict_quality
returns the Default Prediction for every path, without crashing. -/
theorem ocr_unavailable_default {Img : Type} (env : Env Img)
    (h : ∀ img, env.ocr img = Except.error ()) :
    (∀ img, process_image_content env img = none) ∧
    (∀ path, predict_quality env path = defaultPrediction) := by
  have hproc : ∀ img, process_image_content env img = none := by
    intro img
    unfold process_image_content
    rw [h img]
  refine ⟨hproc, ?_⟩
  intro path
  have hext : extractedFeatures env path = none := by
    simp only [extractedFeatures]
    split
    · unfold extract_from_pdf
      split
      · cases hc : env.convertFromPath path with
        | error e => rfl
        | ok pages => exact pagesLoop_all_none (fun p _ => hproc p)
      · rfl
    · split
      · unfold extract_from_image
        cases ho : env.openImage path with
        | error e => rfl
        | ok img => exact hproc img
      · rfl
  simp only [predict_quality]
  split
  · rw [hext]
    rfl
  · rfl

/-- Witness for C7 with the all-tools-failing environment. -/
theorem ocr_unavailable_default_witness :
    process_image_content envNoTools () = none ∧
    predict_quality envNoTools "a.png" = defaultPrediction := by
  have h := ocr_unavailable_default envNoTools (fun _ => rfl)
  exact ⟨h.1 (), h.2 "a.png"⟩

/-- C8: PDF extraction processes pages in page order and returns the
FeatureSet of the first page that yields one, the pages after it being
irrelevant to the result; when the rasterizer dependency is unavailable, or
no page yields a FeatureSet, extraction is absent. -/
theorem pdf_extraction_spec {Img : Type} (env : Env Img) (path : String) :
    (env.pdf2imageAvailable = false → extract_from_pdf env path = none) ∧
    (∀ pages, env.pdf2imageAvailable = true →
      env.convertFromPath path = Except.ok pages →
      ((∀ p ∈ pages, process_image_content env p = none) →
        extract_from_pdf env path = none) ∧
      (∀ pre page rest f, pages = pre ++ page :: rest →
        (∀ q ∈ pre, process_image_content env q = none) →
        process_image_content env page = some f →
        extract_from_pdf env path = some f)) := by
  constructor
  · intro h
    simp [extract_from_pdf, h]
  · intro pages hav hconv
    constructor
    · intro hall
      simp only [extract_from_pdf, hav, if_true, hconv]
      exact pagesLoop_all_none hall
    · intro pre page rest f hsplit hpre hpage
      simp only [extract_from_pdf, hav, if_true, hconv]
      rw [hsplit]
      exact pagesLoop_first_some pre page rest hpre hpage

/-- Witness for C8: a three page PDF whose middle page is the first readable
one. -/
theorem pdf_extraction_spec_witness :
    extract_from_pdf envPdfPages "d.pdf" = some sampleFeatures := by
  have hpage : process_image_content envPdfPages 1 = some sampleFeatures := by
    simp only [process_image_content,
      show envPdfPages.ocr 1 = Except.ok "87.42" from rfl]
    exact extractFeatures_sample
  have h := (pdf_extraction_spec envPdfPages "d.pdf").2 [0, 1, 2] rfl rfl
  refine h.2 [0] 1 [2] sampleFeatures rfl ?_ hpage
  intro q hq
  rw [List.mem_singleton] at hq
  subst hq
  rfl

/-- C9: two invocations of predict_quality on the same file under the same
predictor state give identical Prediction values.  The embedding represents
the OCR engine and the model as fixed functions of the environment, which is
exactly the determinism assumption of the claim, and predict_quality reads
but never mutates that environment, so both calls evaluate the same function
at the same arguments. -/
theorem predict_quality_deterministic {Img : Type} (env1 env2 : Env Img)
    (path : String) (h : env1 = env2) :
    predict_quality env1 path = predict_quality env2 path := by
  rw [h]

/-- Witness for C9. -/
theorem predict_quality_deterministic_witness :
    predict_quality envNoTools "a.png" = predict_quality envNoTools "a.png" :=
  predict_quality_deterministic envNoTools envNoTools "a.png" rfl

/-- C10: whenever extraction succeeds, the final score equals the extracted
Eugenol percentage rounded to two decimals, on the ML path and on the
rule-based path alike; extracted Eugenol values are exact two-decimal numbers
in [60, 98], so every non-default prediction has its score in [60, 98]. -/
theorem score_is_eugenol {Img : Type} (env : Env Img) (path : String)
    (f : FeatureSet) (hf : extractedFeatures env path = some f) :
    (predict_quality env path).score = round2 f.Eugenol_Percentage ∧
    round2 f.Eugenol_Percentage = f.Eugenol_Percentage ∧
    (ruleBasedGrading f).score = round2 f.Eugenol_Percentage ∧
    (∀ m p, mlPrediction m f = Except.ok p →
      p.score = round2 f.Eugenol_Percentage) ∧
    60 ≤ (predict_quality env path).score ∧
    (predict_quality env path).score ≤ 98 := by
  have hg := extractedFeatures_good hf
  have hmain : (predict_quality env path).score = round2 f.Eugenol_Percentage := by
    rw [predict_quality_of_extracted env path hf]
    cases hm : env.model with
    | none =>
      simp only [predictFromFeatures, hm]
      exact (ruleBasedGrading_shape f).1
    | some m =>
      cases hml : mlPrediction m f with
      | error e =>
        simp only [predictFromFeatures, hm, hml]
        exact (ruleBasedGrading_shape f).1
      | ok p =>
        simp only [predictFromFeatures, hm, hml]
        exact (mlPrediction_ok_shape hml).1
  refine ⟨hmain, round2_goodF hg, (ruleBasedGrading_shape f).1,
    fun m p hml => (mlPrediction_ok_shape hml).1, ?_, ?_⟩
  · rw [hmain]
    exact (goodF_score_bounds hg).1
  · rw [hmain]
    exact (goodF_score_bounds hg).2

/-- Witness for C10 with working OCR and no model. -/
theorem score_is_eugenol_witness :
    (predict_quality envImageOnly "r.png").score =
      round2 sampleFeatures.Eugenol_Percentage ∧
    60 ≤ (predict_quality envImageOnly "r.png").score := by
  have h := score_is_eugenol envImageOnly "r.png" sampleFeatures
    (extractedFeatures_png envImageOnly rfl rfl)
  exact ⟨h.1, h.2.2.2.2.1⟩

end CinnamonPredictor
